import Mathlib

/-!
# KORM season processor — Lean model

A shallow embedding of the KORM (King of Rage Mountain) elimination
processor from `src/rffl/core/korm_processor.py`, together with proofs of
the behavioural properties stated in the specification.

Modelling conventions:
* Python `float` scores are modelled as rationals (`ℚ`); the processor only
  compares, sorts and sums scores, it never does float-specific arithmetic.
* Python `dict`s (insertion ordered) are modelled as association lists in
  insertion order; `dict[k]` / `k in dict` become first-match lookup.
* `process_korm_week` mutates the `team_results` dict in place; the model
  returns the updated list next to the `KORMWeekResult`.
-/

abbrev Score := ℚ

/-- `KORMStrike`: a single strike event — the week it happened and the
team's score that week. -/
structure KORMStrike where
  week : Nat
  score : Score
deriving DecidableEq

/-- `KORMTeamResult`: per-team running state for one season. -/
structure KORMTeamResult where
  team_code : String
  strikes : List KORMStrike
  status : String
  elimination_week : Option Nat
  final_place : Option Nat
  payout : Nat
deriving DecidableEq

/-- `KORMTeamResult.strike_count` property. -/
def KORMTeamResult.strike_count (r : KORMTeamResult) : Nat :=
  r.strikes.length

/-- `KORMTeamResult.strike_weeks` property. -/
def KORMTeamResult.strike_weeks (r : KORMTeamResult) : List Nat :=
  r.strikes.map (·.week)

/-- The dataclass defaults: a fresh team is `active` with no strikes. -/
def initTeamResult (team : String) : KORMTeamResult :=
  { team_code := team, strikes := [], status := "active",
    elimination_week := none, final_place := none, payout := 0 }

/-- `KORMWeekResult`: the immutable record of one processed week. -/
structure KORMWeekResult where
  week : Nat
  active_count_start : Nat
  strike_mode : String
  scores : List (String × Score)
  strikes_given : List String
  eliminations : List String
  active_count_end : Nat
deriving DecidableEq

/-- `KORMSeasonResult`: the aggregate result of a season run.
`team_results` keeps the dict's insertion order (one entry per team). -/
structure KORMSeasonResult where
  season : Int
  korm_window : Nat × Nat
  entry_fee : Nat
  pool : Nat
  teams : List String
  weeks : List KORMWeekResult
  team_results : List KORMTeamResult
  winner : Option String
  ended_early : Bool
deriving DecidableEq

/-- `scores[team]` / `team in scores` on a `{team_code: score}` dict:
first-match lookup in the association list. -/
def lookupScore (scores : List (String × Score)) (team : String) : Option Score :=
  (scores.find? (fun p => p.1 == team)).map (·.2)

/-- Step 1 of `process_korm_week`: the codes of teams whose status is not
`"eliminated"`, in dict order. -/
def activeTeams (team_results : List KORMTeamResult) : List String :=
  (team_results.filter (fun r => r.status != "eliminated")).map (·.team_code)

/-- `active_scores = {team: scores[team] for team in active_teams if team in scores}`. -/
def activeScores (scores : List (String × Score))
    (team_results : List KORMTeamResult) : List (String × Score) :=
  (activeTeams team_results).filterMap
    (fun t => (lookupScore scores t).map (fun s => (t, s)))

/-- Step 2: `"2-strike"` iff five or more teams are active at week start. -/
def strikeModeOf (active_count_start : Nat) : String :=
  if 5 ≤ active_count_start then "2-strike" else "1-strike"

/-- `strike_count = 2 if strike_mode == "2-strike" else 1`. -/
def strikeCountOf (strike_mode : String) : Nat :=
  if strike_mode = "2-strike" then 2 else 1

/-- `sorted(active_scores.items(), key=lambda x: x[1])`: compare entries by
score, ascending. -/
def scoreAsc (a b : String × Score) : Prop :=
  a.2 ≤ b.2

instance : DecidableRel scoreAsc :=
  fun a b => inferInstanceAs (Decidable (a.2 ≤ b.2))

instance : IsTotal (String × Score) scoreAsc :=
  ⟨fun a b => le_total a.2 b.2⟩

instance : IsTrans (String × Score) scoreAsc :=
  ⟨fun _ _ _ h h' => le_trans h h'⟩

/-- `sorted(..., key=lambda x: -x[1])`: compare entries by score, descending. -/
def scoreDesc (a b : String × Score) : Prop :=
  b.2 ≤ a.2

instance : DecidableRel scoreDesc :=
  fun a b => inferInstanceAs (Decidable (b.2 ≤ a.2))

/-- Step 3: the active scored teams sorted ascending by score.  Python's
`sorted` is a stable sort; it is modelled by the stable `List.insertionSort`. -/
def sortedTeams (scores : List (String × Score))
    (team_results : List KORMTeamResult) : List (String × Score) :=
  (activeScores scores team_results).insertionSort scoreAsc

/-- Step 4: the teams to strike.  The source guards with
`len(sorted_teams) >= strike_count` and then reads the threshold at index
`strike_count - 1`; since `strike_count ≥ 1` that guard is equivalent to the
index lookup returning `some`. -/
def teamsToStrike (scores : List (String × Score))
    (team_results : List KORMTeamResult) : List String :=
  let strike_count := strikeCountOf (strikeModeOf (activeTeams team_results).length)
  let sorted_teams := sortedTeams scores team_results
  match sorted_teams[strike_count - 1]? with
  | some threshold =>
      (sorted_teams.filter (fun p => decide (p.2 ≤ threshold.2))).map (·.1)
  | none => []

/-- The loop body's mutation of one struck team: append
`KORMStrike(week, scores[team_code])` and update `status` /
`elimination_week` from the new strike count ("eliminated" at two or more
strikes, "on_notice" at exactly one).  For a found team `r.team_code` is the
struck code, so `scores[team_code]` is `lookupScore scores r.team_code`. -/
def struckUpdate (week : Nat) (scores : List (String × Score))
    (r : KORMTeamResult) : KORMTeamResult :=
  let strikes := r.strikes ++ [⟨week, (lookupScore scores r.team_code).getD 0⟩]
  if 2 ≤ strikes.length then
    { r with strikes := strikes, status := "eliminated",
             elimination_week := some week }
  else if strikes.length = 1 then
    { r with strikes := strikes, status := "on_notice" }
  else
    { r with strikes := strikes }

/-- One iteration of the step-6 loop body: strike `team_code`, updating the
team-results dict and the week's elimination list.  The `none` branch of the
lookup cannot fire for dict-shaped input (Python's `team_results[team_code]`
would raise, but struck codes always come from the dict's keys); likewise
`getD 0` in `struckUpdate` models `scores[team_code]`, which always succeeds
for struck teams because they were taken from the score set.  The source
tests the new strike count `result.strike_count >= 2`, which is
`r.strikes.length + 1`. -/
def strikeStep (week : Nat) (scores : List (String × Score))
    (acc : List KORMTeamResult × List String) (team_code : String) :
    List KORMTeamResult × List String :=
  match acc.1.find? (fun r => r.team_code == team_code) with
  | none => acc
  | some r =>
      let r' := struckUpdate week scores r
      (acc.1.map (fun x => if x.team_code == team_code then r' else x),
       if 2 ≤ r.strikes.length + 1 then acc.2 ++ [team_code] else acc.2)

/-- `process_korm_week`: process a single week.  Returns the week record and
the updated team-results dict (mutated in place in the source). -/
def process_korm_week (week : Nat) (scores : List (String × Score))
    (team_results : List KORMTeamResult) : KORMWeekResult × List KORMTeamResult :=
  let active_count_start := (activeTeams team_results).length
  let strike_mode := strikeModeOf active_count_start
  let scores_list :=
    (activeScores scores team_results).insertionSort scoreDesc
  let teams_to_strike := teamsToStrike scores team_results
  let folded := teams_to_strike.foldl (strikeStep week scores) (team_results, [])
  let active_count_end := (folded.1.filter (fun r => r.status != "eliminated")).length
  (⟨week, active_count_start, strike_mode, scores_list, teams_to_strike,
    folded.2, active_count_end⟩,
   folded.1)

/-- The per-season configuration table `SEASON_CONFIG`:
week window, entry fee, prize pool. -/
structure SeasonConfig where
  weeks : Nat × Nat
  entry_fee : Nat
  pool : Nat
deriving DecidableEq

/-- `SEASON_CONFIG` lookup (Python dict keyed by year). -/
def SEASON_CONFIG (year : Int) : Option SeasonConfig :=
  if year = 2018 then some ⟨(1, 13), 40, 480⟩
  else if year = 2019 then some ⟨(1, 13), 100, 1200⟩
  else if year = 2020 then some ⟨(1, 13), 100, 1200⟩
  else if year = 2021 then some ⟨(1, 14), 100, 1200⟩
  else if year = 2022 then some ⟨(1, 14), 100, 1200⟩
  else if year = 2023 then some ⟨(1, 14), 100, 1200⟩
  else if year = 2024 then some ⟨(1, 14), 100, 1200⟩
  else if year = 2025 then some ⟨(1, 14), 100, 1200⟩
  else none

/-- `PAYOUTS.get(place, 0)` — the 2019+ payout table. -/
def PAYOUTS (place : Nat) : Nat :=
  if place = 1 then 800 else if place = 2 then 300 else if place = 3 then 100 else 0

/-- `PAYOUTS_2018.get(place, 0)` — the 2018 pilot-year payout table. -/
def PAYOUTS_2018 (place : Nat) : Nat :=
  if place = 1 then 320 else if place = 2 then 120 else if place = 3 then 40 else 0

/-- `{week: {team_code: score}}` season input. -/
abbrev WeeklyScores := List (Nat × List (String × Score))

/-- `week in weekly_scores` / `weekly_scores[week]`. -/
def lookupWeek (weekly_scores : WeeklyScores) (week : Nat) :
    Option (List (String × Score)) :=
  (weekly_scores.find? (fun p => p.1 == week)).map (·.2)

/-- `total_points[team] = sum(scores.get(team, 0) for scores in weekly_scores.values())`. -/
def totalPoints (weekly_scores : WeeklyScores) (team : String) : Score :=
  (weekly_scores.map (fun ws => (lookupScore ws.2 team).getD 0)).sum

/-- Sort key comparison for active teams in `_assign_final_standings`:
Python sorts ascending by the tuple `(strike_count, -total_points)`. -/
def activeRank (tp : String → Score) (a b : KORMTeamResult) : Prop :=
  a.strike_count < b.strike_count ∨
    (a.strike_count = b.strike_count ∧ tp b.team_code ≤ tp a.team_code)

instance (tp : String → Score) : DecidableRel (activeRank tp) :=
  fun a b => inferInstanceAs (Decidable (a.strike_count < b.strike_count ∨
    (a.strike_count = b.strike_count ∧ tp b.team_code ≤ tp a.team_code)))

/-- First component of the eliminated-team sort key:
`-r.elimination_week if r.elimination_week else 0`.  (Python truthiness:
`None` and `0` both give `0`; since `-0 = 0` the two coincide.) -/
def elimKey (r : KORMTeamResult) : Int :=
  match r.elimination_week with
  | some w => -(w : Int)
  | none => 0

/-- Sort key comparison for eliminated teams: ascending by
`(elimKey, -total_points)` — later elimination week first. -/
def elimRank (tp : String → Score) (a b : KORMTeamResult) : Prop :=
  elimKey a < elimKey b ∨
    (elimKey a = elimKey b ∧ tp b.team_code ≤ tp a.team_code)

instance (tp : String → Score) : DecidableRel (elimRank tp) :=
  fun a b => inferInstanceAs (Decidable (elimKey a < elimKey b ∨
    (elimKey a = elimKey b ∧ tp b.team_code ≤ tp a.team_code)))

/-- The two place-assignment loops of `_assign_final_standings`: walk the
ranked list handing out consecutive places and the payout for each place. -/
def assignPlaces (payouts : Nat → Nat) (place : Nat) :
    List KORMTeamResult → List KORMTeamResult
  | [] => []
  | r :: rest =>
      { r with final_place := some place, payout := payouts place } ::
        assignPlaces payouts (place + 1) rest

/-- `_assign_final_standings`: rank still-active teams above eliminated
ones, assign places `1..N` and payouts.  The source mutates each
`KORMTeamResult` object in place while the dict keeps its insertion order;
the model writes each placed record back over the entry with the same team
code. -/
def assign_final_standings (year : Int) (weekly_scores : WeeklyScores)
    (team_results : List KORMTeamResult) : List KORMTeamResult :=
  let payouts := if year = 2018 then PAYOUTS_2018 else PAYOUTS
  let tp := totalPoints weekly_scores
  let active := team_results.filter (fun r => r.status != "eliminated")
  let eliminated := team_results.filter (fun r => r.status == "eliminated")
  let placed :=
    assignPlaces payouts 1
      (active.insertionSort (activeRank tp) ++ eliminated.insertionSort (elimRank tp))
  team_results.map
    (fun r => (placed.find? (fun p => p.team_code == r.team_code)).getD r)

/-- The week loop of `process_korm_season` over the remaining week numbers.
A week absent from `weekly_scores` is skipped (`continue`) *before* the
early-termination check; for a present week, if at most one team is still
active the loop breaks with `ended_early = true`.  Returns the final team
state, the collected week records and the `ended_early` flag. -/
def runWeeks (weekly_scores : WeeklyScores) :
    List KORMTeamResult → List Nat →
    List KORMTeamResult × List KORMWeekResult × Bool
  | team_results, [] => (team_results, [], false)
  | team_results, week :: rest =>
    match lookupWeek weekly_scores week with
    | none => runWeeks weekly_scores team_results rest
    | some scores =>
      let active_count :=
        (team_results.filter (fun r => r.status != "eliminated")).length
      if active_count ≤ 1 then (team_results, [], true)
      else
        let step := process_korm_week week scores team_results
        let restRun := runWeeks weekly_scores step.2 rest
        (restRun.1, step.1 :: restRun.2.1, restRun.2.2)

/-- `process_korm_season`: run a full season.  Raising `ValueError` when
week-1 data is missing is modelled by `Except.error`. -/
def process_korm_season (year : Int) (weekly_scores : WeeklyScores) :
    Except String KORMSeasonResult :=
  let config := (SEASON_CONFIG year).getD ⟨(1, 14), 100, 1200⟩
  let start_week := config.weeks.1
  let end_week := config.weeks.2
  match lookupWeek weekly_scores 1 with
  | none => .error "No week 1 data"
  | some week1 =>
    let teams := week1.map (·.1)
    let team_results := teams.map initTeamResult
    let run :=
      runWeeks weekly_scores team_results
        (List.range' start_week (end_week + 1 - start_week))
    let final_results := assign_final_standings year weekly_scores run.1
    let winner := (final_results.find? (fun r => r.final_place == some 1)).map (·.team_code)
    .ok { season := year, korm_window := (start_week, end_week),
          entry_fee := config.entry_fee, pool := config.pool, teams := teams,
          weeks := run.2.1, team_results := final_results, winner := winner,
          ended_early := run.2.2 }

/-! ## Basic lemmas about the weekly strike step -/

/-- The strike appended by `struckUpdate`. -/
def newStrike (week : Nat) (scores : List (String × Score))
    (r : KORMTeamResult) : KORMStrike :=
  ⟨week, (lookupScore scores r.team_code).getD 0⟩

lemma struckUpdate_team_code (week : Nat) (scores : List (String × Score))
    (r : KORMTeamResult) : (struckUpdate week scores r).team_code = r.team_code := by
  simp only [struckUpdate]
  split_ifs <;> rfl

lemma struckUpdate_of_no_strikes (week : Nat) (scores : List (String × Score))
    (r : KORMTeamResult) (h : r.strikes.length = 0) :
    struckUpdate week scores r =
      { r with strikes := r.strikes ++ [newStrike week scores r],
               status := "on_notice" } := by
  simp only [struckUpdate, newStrike, List.length_append, List.length_cons,
    List.length_nil, h]
  norm_num

lemma struckUpdate_of_strikes_pos (week : Nat) (scores : List (String × Score))
    (r : KORMTeamResult) (h : 1 ≤ r.strikes.length) :
    struckUpdate week scores r =
      { r with strikes := r.strikes ++ [newStrike week scores r],
               status := "eliminated", elimination_week := some week } := by
  simp only [struckUpdate, newStrike, List.length_append, List.length_cons,
    List.length_nil]
  rw [if_pos (by omega)]

lemma strikeStep_eq (week : Nat) (scores : List (String × Score))
    (rs : List KORMTeamResult) (el : List String) (tc : String)
    (r : KORMTeamResult) (hf : rs.find? (fun x => x.team_code == tc) = some r) :
    strikeStep week scores (rs, el) tc =
      (rs.map (fun x => if x.team_code == tc then struckUpdate week scores r else x),
       if 2 ≤ r.strikes.length + 1 then el ++ [tc] else el) := by
  simp only [strikeStep, hf]

/-- If some entry of the team dict has code `tc`, `find?` returns such an
entry. -/
lemma find?_code_isSome (rs : List KORMTeamResult) (tc : String)
    (h : ∃ r ∈ rs, r.team_code = tc) :
    ∃ r, rs.find? (fun x => x.team_code == tc) = some r ∧ r ∈ rs ∧ r.team_code = tc := by
  obtain ⟨r0, hr0, hc⟩ := h
  have h1 : (rs.find? (fun x => x.team_code == tc)).isSome :=
    List.find?_isSome.mpr ⟨r0, hr0, by simp [hc]⟩
  obtain ⟨x, hx⟩ := Option.isSome_iff_exists.mp h1
  refine ⟨x, hx, List.mem_of_find?_eq_some hx, ?_⟩
  simpa using List.find?_some hx

/-- With distinct team codes, looking up a member's own code finds it. -/
lemma find?_code_self (rs : List KORMTeamResult) (r : KORMTeamResult)
    (hnd : (rs.map (·.team_code)).Nodup) (hr : r ∈ rs) :
    rs.find? (fun x => x.team_code == r.team_code) = some r := by
  obtain ⟨x, hx, hxmem, hxcode⟩ :=
    find?_code_isSome rs r.team_code ⟨r, hr, rfl⟩
  rw [hx, List.inj_on_of_nodup_map hnd hxmem hr hxcode]

/-- Decomposition of a dict with distinct codes around a found entry: the
found entry is unique, and the in-place update of `strikeStep` replaces
exactly that entry. -/
lemma find?_code_decomp :
    ∀ (rs : List KORMTeamResult) (tc : String) (r : KORMTeamResult),
      (rs.map (·.team_code)).Nodup →
      rs.find? (fun x => x.team_code == tc) = some r →
      ∃ l1 l2, rs = l1 ++ r :: l2 ∧ r.team_code = tc ∧
        (∀ x ∈ l1, x.team_code ≠ tc) ∧ (∀ x ∈ l2, x.team_code ≠ tc) ∧
        ∀ r2, rs.map (fun x => if x.team_code == tc then r2 else x) = l1 ++ r2 :: l2
  | [], tc, r, _, hf => by simp at hf
  | x :: xs, tc, r, hnd, hf => by
    rcases hbeq : (x.team_code == tc) with _ | _
    · rw [List.find?_cons_of_neg _ (by simp [hbeq])] at hf
      have hxne : x.team_code ≠ tc := by simpa using hbeq
      obtain ⟨l1, l2, hsplit, hcode, hl1, hl2, hmap⟩ :=
        find?_code_decomp xs tc r (by simpa using hnd.of_cons) hf
      refine ⟨x :: l1, l2, by simp [hsplit], hcode, ?_, hl2, ?_⟩
      · intro y hy
        rcases List.mem_cons.mp hy with h | h
        · exact h ▸ hxne
        · exact hl1 y h
      · intro r2
        simp only [List.map_cons, List.cons_append]
        rw [if_neg (by simp [hbeq]), hmap r2]
    · rw [List.find?_cons_of_pos _ (by simp [hbeq])] at hf
      have hxr : x = r := by injection hf
      have hxcode : x.team_code = tc := by simpa using hbeq
      subst hxr
      have hnotin : x.team_code ∉ xs.map (·.team_code) := by
        simpa using (List.nodup_cons.mp hnd).1
      have hxs : ∀ y ∈ xs, y.team_code ≠ tc := by
        intro y hy hc
        exact hnotin (hxcode ▸ hc ▸ List.mem_map_of_mem (·.team_code) hy)
      refine ⟨[], xs, by simp, hxcode, by simp, hxs, ?_⟩
      intro r2
      have hmapxs : xs.map (fun y => if y.team_code == tc then r2 else y) = xs := by
        refine (List.map_congr_left ?_).trans (List.map_id xs)
        intro y hy
        simp [hxs y hy]
      simp only [List.map_cons, List.nil_append]
      rw [if_pos hbeq, hmapxs]

/-- Closed form of the strike loop's effect on the team dict: with distinct
team codes and distinct struck codes, each present in the dict, every struck
team's entry is updated once by `struckUpdate` and every other entry is left
untouched. -/
lemma strikeFold_fst (week : Nat) (scores : List (String × Score)) :
    ∀ (ts : List String) (rs : List KORMTeamResult) (el : List String),
      (rs.map (·.team_code)).Nodup → ts.Nodup →
      (∀ tc ∈ ts, ∃ r ∈ rs, r.team_code = tc) →
      (ts.foldl (strikeStep week scores) (rs, el)).1
        = rs.map (fun r => if r.team_code ∈ ts then struckUpdate week scores r else r)
  | [], rs, el, _, _, _ => by simp
  | tc :: rest, rs, el, hnd, hts, hex => by
    obtain ⟨r, hf, hrmem, hrcode⟩ :=
      find?_code_isSome rs tc (hex tc (List.mem_cons_self tc rest))
    obtain ⟨l1, l2, hsplit, hcode, hl1, hl2, hmap⟩ := find?_code_decomp rs tc r hnd hf
    have htcrest : tc ∉ rest := (List.nodup_cons.mp hts).1
    rw [List.foldl_cons, strikeStep_eq week scores rs el tc r hf,
      hmap (struckUpdate week scores r)]
    have hucode : (struckUpdate week scores r).team_code = r.team_code :=
      struckUpdate_team_code _ _ _
    have hcodes1 : ((l1 ++ struckUpdate week scores r :: l2).map (·.team_code))
        = rs.map (·.team_code) := by
      simp [hsplit, hucode]
    have hnd1 : ((l1 ++ struckUpdate week scores r :: l2).map (·.team_code)).Nodup := by
      rw [hcodes1]; exact hnd
    have hex1 : ∀ tc2 ∈ rest, ∃ x ∈ l1 ++ struckUpdate week scores r :: l2,
        x.team_code = tc2 := by
      intro tc2 htc2
      obtain ⟨x, hx, hxcode⟩ := hex tc2 (List.mem_cons_of_mem _ htc2)
      rw [hsplit] at hx
      rcases List.mem_append.mp hx with h | h
      · exact ⟨x, List.mem_append_left _ h, hxcode⟩
      · rcases List.mem_cons.mp h with h | h
        · exfalso
          apply htcrest
          have : tc2 = tc := by rw [← hxcode, h, hcode]
          exact this ▸ htc2
        · exact ⟨x, List.mem_append_right _ (List.mem_cons_of_mem _ h), hxcode⟩
    rw [strikeFold_fst week scores rest (l1 ++ struckUpdate week scores r :: l2) _
      hnd1 (List.nodup_cons.mp hts).2 hex1]
    have hFrest : ∀ x : KORMTeamResult, x.team_code ≠ tc →
        (if x.team_code ∈ rest then struckUpdate week scores x else x)
          = (if x.team_code ∈ tc :: rest then struckUpdate week scores x else x) := by
      intro x hx
      by_cases h : x.team_code ∈ rest
      · rw [if_pos h, if_pos (List.mem_cons_of_mem _ h)]
      · rw [if_neg h, if_neg (by simp [hx, h])]
    have h1 : l1.map (fun x => if x.team_code ∈ rest then struckUpdate week scores x else x)
        = l1.map (fun x => if x.team_code ∈ tc :: rest then struckUpdate week scores x else x) :=
      List.map_congr_left (fun x hx => hFrest x (hl1 x hx))
    have h2 : l2.map (fun x => if x.team_code ∈ rest then struckUpdate week scores x else x)
        = l2.map (fun x => if x.team_code ∈ tc :: rest then struckUpdate week scores x else x) :=
      List.map_congr_left (fun x hx => hFrest x (hl2 x hx))
    have h3 : (if (struckUpdate week scores r).team_code ∈ rest then
          struckUpdate week scores (struckUpdate week scores r)
        else struckUpdate week scores r) = struckUpdate week scores r := by
      rw [if_neg (by rw [hucode, hcode]; exact htcrest)]
    have h4 : (if r.team_code ∈ tc :: rest then struckUpdate week scores r else r)
        = struckUpdate week scores r := by
      rw [if_pos (by rw [hcode]; exact List.mem_cons_self tc rest)]
    rw [hsplit]
    simp only [List.map_append, List.map_cons, h1, h2, h3, h4]

/-- Whether the dict entry for `tc` already has a strike (so that a fresh
strike would eliminate it). -/
def hadStrike (rs : List KORMTeamResult) (tc : String) : Bool :=
  match rs.find? (fun r => r.team_code == tc) with
  | some r => decide (1 ≤ r.strikes.length)
  | none => false

lemma hadStrike_middle :
    ∀ (l1 l2 : List KORMTeamResult) (u v : KORMTeamResult) (tc2 : String),
      u.team_code = v.team_code → v.team_code ≠ tc2 →
      hadStrike (l1 ++ u :: l2) tc2 = hadStrike (l1 ++ v :: l2) tc2
  | [], l2, u, v, tc2, hu, hv => by
    unfold hadStrike
    simp only [List.nil_append]
    rw [List.find?_cons_of_neg _ (by simp [hu, hv]),
      List.find?_cons_of_neg _ (by simp [hv])]
  | a :: l1, l2, u, v, tc2, hu, hv => by
    rcases hbeq : (a.team_code == tc2) with _ | _
    · unfold hadStrike
      simp only [List.cons_append]
      rw [List.find?_cons_of_neg _ (by simp [hbeq]),
        List.find?_cons_of_neg _ (by simp [hbeq])]
      have h := hadStrike_middle l1 l2 u v tc2 hu hv
      unfold hadStrike at h
      exact h
    · unfold hadStrike
      simp only [List.cons_append]
      rw [List.find?_cons_of_pos _ (by simp [hbeq]),
        List.find?_cons_of_pos _ (by simp [hbeq])]

/-- Closed form of the strike loop's elimination list: a struck code is
recorded as eliminated exactly when its entry already had a strike at week
start. -/
lemma strikeFold_snd (week : Nat) (scores : List (String × Score)) :
    ∀ (ts : List String) (rs : List KORMTeamResult) (el : List String),
      (rs.map (·.team_code)).Nodup → ts.Nodup →
      (∀ tc ∈ ts, ∃ r ∈ rs, r.team_code = tc) →
      (ts.foldl (strikeStep week scores) (rs, el)).2
        = el ++ ts.filter (hadStrike rs)
  | [], rs, el, _, _, _ => by simp
  | tc :: rest, rs, el, hnd, hts, hex => by
    obtain ⟨r, hf, hrmem, hrcode⟩ :=
      find?_code_isSome rs tc (hex tc (List.mem_cons_self tc rest))
    obtain ⟨l1, l2, hsplit, hcode, hl1, hl2, hmap⟩ := find?_code_decomp rs tc r hnd hf
    have htcrest : tc ∉ rest := (List.nodup_cons.mp hts).1
    rw [List.foldl_cons, strikeStep_eq week scores rs el tc r hf,
      hmap (struckUpdate week scores r)]
    have hucode : (struckUpdate week scores r).team_code = r.team_code :=
      struckUpdate_team_code _ _ _
    have hcodes1 : ((l1 ++ struckUpdate week scores r :: l2).map (·.team_code))
        = rs.map (·.team_code) := by
      simp [hsplit, hucode]
    have hnd1 : ((l1 ++ struckUpdate week scores r :: l2).map (·.team_code)).Nodup := by
      rw [hcodes1]; exact hnd
    have hex1 : ∀ tc2 ∈ rest, ∃ x ∈ l1 ++ struckUpdate week scores r :: l2,
        x.team_code = tc2 := by
      intro tc2 htc2
      obtain ⟨x, hx, hxcode⟩ := hex tc2 (List.mem_cons_of_mem _ htc2)
      rw [hsplit] at hx
      rcases List.mem_append.mp hx with h | h
      · exact ⟨x, List.mem_append_left _ h, hxcode⟩
      · rcases List.mem_cons.mp h with h | h
        · exfalso
          apply htcrest
          have : tc2 = tc := by rw [← hxcode, h, hcode]
          exact this ▸ htc2
        · exact ⟨x, List.mem_append_right _ (List.mem_cons_of_mem _ h), hxcode⟩
    rw [strikeFold_snd week scores rest (l1 ++ struckUpdate week scores r :: l2) _
      hnd1 (List.nodup_cons.mp hts).2 hex1]
    have hfilter : rest.filter (hadStrike (l1 ++ struckUpdate week scores r :: l2))
        = rest.filter (hadStrike rs) := by
      apply List.filter_congr
      intro tc2 htc2
      rw [hsplit]
      have hne : r.team_code ≠ tc2 := by
        intro h
        exact htcrest (hcode ▸ h ▸ htc2)
      exact hadStrike_middle l1 l2 (struckUpdate week scores r) r tc2 hucode hne
    have hhs : hadStrike rs tc = decide (1 ≤ r.strikes.length) := by
      unfold hadStrike
      rw [hf]
    rw [hfilter, List.filter_cons, hhs]
    by_cases h1 : 1 ≤ r.strikes.length
    · rw [if_pos (by omega), if_pos (by simpa using h1)]
      simp
    · rw [if_neg (by omega), if_neg (by simpa using h1)]

/-- Book-keeping identity of the strike loop: the number of non-eliminated
entries plus the number of recorded eliminations is invariant (each recorded
elimination flips exactly one entry from non-eliminated to eliminated). -/
lemma strikeFold_count (week : Nat) (scores : List (String × Score)) :
    ∀ (ts : List String) (rs : List KORMTeamResult) (el : List String),
      (rs.map (·.team_code)).Nodup → ts.Nodup →
      (∀ tc ∈ ts, ∃ r ∈ rs, r.team_code = tc ∧ r.status ≠ "eliminated") →
      ((ts.foldl (strikeStep week scores) (rs, el)).1.filter
          (fun r => r.status != "eliminated")).length
        + (ts.foldl (strikeStep week scores) (rs, el)).2.length
        = (rs.filter (fun r => r.status != "eliminated")).length + el.length
  | [], rs, el, _, _, _ => by simp
  | tc :: rest, rs, el, hnd, hts, hex => by
    obtain ⟨x0, hx0, hx0c, hx0ne⟩ := hex tc (List.mem_cons_self tc rest)
    obtain ⟨r, hf, hrmem, hrcode⟩ := find?_code_isSome rs tc ⟨x0, hx0, hx0c⟩
    have hrx0 : r = x0 :=
      List.inj_on_of_nodup_map hnd hrmem hx0 (by rw [hrcode, hx0c])
    have hrne : r.status ≠ "eliminated" := hrx0 ▸ hx0ne
    obtain ⟨l1, l2, hsplit, hcode, hl1, hl2, hmap⟩ := find?_code_decomp rs tc r hnd hf
    have htcrest : tc ∉ rest := (List.nodup_cons.mp hts).1
    rw [List.foldl_cons, strikeStep_eq week scores rs el tc r hf,
      hmap (struckUpdate week scores r)]
    have hucode : (struckUpdate week scores r).team_code = r.team_code :=
      struckUpdate_team_code _ _ _
    have hcodes1 : ((l1 ++ struckUpdate week scores r :: l2).map (·.team_code))
        = rs.map (·.team_code) := by
      simp [hsplit, hucode]
    have hnd1 : ((l1 ++ struckUpdate week scores r :: l2).map (·.team_code)).Nodup := by
      rw [hcodes1]; exact hnd
    have hex1 : ∀ tc2 ∈ rest, ∃ x ∈ l1 ++ struckUpdate week scores r :: l2,
        x.team_code = tc2 ∧ x.status ≠ "eliminated" := by
      intro tc2 htc2
      obtain ⟨x, hx, hxcode, hxne⟩ := hex tc2 (List.mem_cons_of_mem _ htc2)
      rw [hsplit] at hx
      rcases List.mem_append.mp hx with h | h
      · exact ⟨x, List.mem_append_left _ h, hxcode, hxne⟩
      · rcases List.mem_cons.mp h with h | h
        · exfalso
          apply htcrest
          have : tc2 = tc := by rw [← hxcode, h, hcode]
          exact this ▸ htc2
        · exact ⟨x, List.mem_append_right _ (List.mem_cons_of_mem _ h), hxcode, hxne⟩
    rw [strikeFold_count week scores rest (l1 ++ struckUpdate week scores r :: l2) _
      hnd1 (List.nodup_cons.mp hts).2 hex1]
    have hsplitcount : (rs.filter (fun r => r.status != "eliminated")).length
        = (l1.filter (fun r => r.status != "eliminated")).length
          + ((if r.status != "eliminated" then 1 else 0)
          + (l2.filter (fun r => r.status != "eliminated")).length) := by
      rw [hsplit]
      simp only [List.filter_append, List.filter_cons, List.length_append]
      split <;> simp
      omega
    have hrne1 : (r.status != "eliminated") = true := by simpa using hrne
    by_cases h1 : 1 ≤ r.strikes.length
    · have hu : struckUpdate week scores r =
          { r with strikes := r.strikes ++ [newStrike week scores r],
                   status := "eliminated", elimination_week := some week } :=
        struckUpdate_of_strikes_pos week scores r h1
      rw [if_pos (by omega)]
      simp only [List.filter_append, List.filter_cons, List.length_append, hu,
        List.length_append, hsplitcount, hrne1]
      simp
      omega
    · have hlen : r.strikes.length = 0 := by omega
      have hu : struckUpdate week scores r =
          { r with strikes := r.strikes ++ [newStrike week scores r],
                   status := "on_notice" } :=
        struckUpdate_of_no_strikes week scores r hlen
      rw [if_neg (by omega)]
      simp only [List.filter_append, List.filter_cons, List.length_append, hu,
        hsplitcount, hrne1]
      simp
      omega

/-! ## Properties of the weekly strike selection -/

lemma filterMap_lookup_keys (scores : List (String × Score)) :
    ∀ (l : List String),
      (l.filterMap (fun t => (lookupScore scores t).map (fun s => (t, s)))).map (·.1)
        = l.filter (fun t => (lookupScore scores t).isSome)
  | [] => by simp
  | t :: l => by
    rcases h : lookupScore scores t with _ | v
    · simp [h, filterMap_lookup_keys scores l]
    · simp [h, filterMap_lookup_keys scores l]

lemma activeScores_fst (scores : List (String × Score)) (rs : List KORMTeamResult) :
    (activeScores scores rs).map (·.1)
      = (activeTeams rs).filter (fun t => (lookupScore scores t).isSome) :=
  filterMap_lookup_keys scores (activeTeams rs)

lemma mem_activeTeams (rs : List KORMTeamResult) (tc : String) :
    tc ∈ activeTeams rs ↔ ∃ r ∈ rs, r.team_code = tc ∧ r.status ≠ "eliminated" := by
  unfold activeTeams
  simp only [List.mem_map, List.mem_filter, bne_iff_ne]
  constructor
  · rintro ⟨r, ⟨hr, hne⟩, hc⟩
    exact ⟨r, hr, hc, hne⟩
  · rintro ⟨r, hr, hc, hne⟩
    exact ⟨r, ⟨hr, hne⟩, hc⟩

lemma mem_activeScores (scores : List (String × Score)) (rs : List KORMTeamResult)
    (t : String) (q : Score) :
    (t, q) ∈ activeScores scores rs ↔
      t ∈ activeTeams rs ∧ lookupScore scores t = some q := by
  unfold activeScores
  simp only [List.mem_filterMap, Option.map_eq_some']
  constructor
  · rintro ⟨t2, ht2, s, hs, heq⟩
    obtain ⟨h1, h2⟩ := Prod.mk.injEq .. ▸ heq
    · exact ⟨h1 ▸ ht2, h1 ▸ h2 ▸ hs⟩
  · rintro ⟨ht, hq⟩
    exact ⟨t, ht, q, hq, rfl⟩

lemma mem_sortedTeams (scores : List (String × Score)) (rs : List KORMTeamResult)
    (p : String × Score) :
    p ∈ sortedTeams scores rs ↔ p ∈ activeScores scores rs := by
  unfold sortedTeams
  exact (List.perm_insertionSort scoreAsc _).mem_iff

lemma teamsToStrike_subset (scores : List (String × Score)) (rs : List KORMTeamResult) :
    ∀ tc ∈ teamsToStrike scores rs, tc ∈ activeTeams rs := by
  intro tc htc
  simp only [teamsToStrike] at htc
  rcases h : (sortedTeams scores rs)[strikeCountOf (strikeModeOf (activeTeams rs).length) - 1]?
    with _ | thr
  · rw [h] at htc
    simp at htc
  · rw [h] at htc
    simp only [List.mem_map] at htc
    obtain ⟨p, hp, hfst⟩ := htc
    have hp2 : p ∈ activeScores scores rs :=
      (mem_sortedTeams scores rs p).mp (List.mem_of_mem_filter hp)
    have hp3 : p.1 ∈ (activeScores scores rs).map (·.1) := List.mem_map_of_mem _ hp2
    rw [activeScores_fst] at hp3
    exact hfst ▸ List.mem_of_mem_filter hp3

lemma activeTeams_nodup (rs : List KORMTeamResult)
    (hnd : (rs.map (·.team_code)).Nodup) : (activeTeams rs).Nodup := by
  unfold activeTeams
  exact (List.Sublist.map (·.team_code) (List.filter_sublist rs)).nodup hnd

lemma teamsToStrike_nodup (scores : List (String × Score)) (rs : List KORMTeamResult)
    (hnd : (rs.map (·.team_code)).Nodup) : (teamsToStrike scores rs).Nodup := by
  have h2 : ((activeScores scores rs).map (·.1)).Nodup := by
    rw [activeScores_fst]
    exact (List.filter_sublist _).nodup (activeTeams_nodup rs hnd)
  have h3 : ((sortedTeams scores rs).map (·.1)).Nodup :=
    (((List.perm_insertionSort scoreAsc _).map (·.1)).nodup_iff).mpr h2
  simp only [teamsToStrike]
  rcases h : (sortedTeams scores rs)[strikeCountOf (strikeModeOf (activeTeams rs).length) - 1]?
    with _ | thr
  · exact List.nodup_nil
  · exact (List.Sublist.map (fun p : String × Score => p.1)
      (List.filter_sublist (sortedTeams scores rs))).nodup h3

lemma teamsToStrike_entries (scores : List (String × Score)) (rs : List KORMTeamResult) :
    ∀ tc ∈ teamsToStrike scores rs, ∃ r ∈ rs, r.team_code = tc ∧ r.status ≠ "eliminated" :=
  fun tc htc => (mem_activeTeams rs tc).mp (teamsToStrike_subset scores rs tc htc)

/-! ## Projections and closed form of `process_korm_week` -/

lemma process_korm_week_snd (week : Nat) (scores : List (String × Score))
    (rs : List KORMTeamResult) :
    (process_korm_week week scores rs).2
      = ((teamsToStrike scores rs).foldl (strikeStep week scores) (rs, [])).1 := rfl

lemma process_korm_week_strikes_given (week : Nat) (scores : List (String × Score))
    (rs : List KORMTeamResult) :
    (process_korm_week week scores rs).1.strikes_given = teamsToStrike scores rs := rfl

lemma process_korm_week_eliminations (week : Nat) (scores : List (String × Score))
    (rs : List KORMTeamResult) :
    (process_korm_week week scores rs).1.eliminations
      = ((teamsToStrike scores rs).foldl (strikeStep week scores) (rs, [])).2 := rfl

lemma process_korm_week_active_start (week : Nat) (scores : List (String × Score))
    (rs : List KORMTeamResult) :
    (process_korm_week week scores rs).1.active_count_start
      = (activeTeams rs).length := rfl

lemma process_korm_week_active_end (week : Nat) (scores : List (String × Score))
    (rs : List KORMTeamResult) :
    (process_korm_week week scores rs).1.active_count_end
      = ((process_korm_week week scores rs).2.filter
          (fun r => r.status != "eliminated")).length := rfl

lemma process_korm_week_strike_mode (week : Nat) (scores : List (String × Score))
    (rs : List KORMTeamResult) :
    (process_korm_week week scores rs).1.strike_mode
      = strikeModeOf (activeTeams rs).length := rfl

/-- With distinct team codes, the weekly update is: strike every team in
`teamsToStrike` once, leave everyone else untouched. -/
lemma process_korm_week_closed (week : Nat) (scores : List (String × Score))
    (rs : List KORMTeamResult) (hnd : (rs.map (·.team_code)).Nodup) :
    (process_korm_week week scores rs).2
      = rs.map (fun r => if r.team_code ∈ teamsToStrike scores rs
          then struckUpdate week scores r else r) := by
  rw [process_korm_week_snd]
  exact strikeFold_fst week scores _ rs [] hnd (teamsToStrike_nodup scores rs hnd)
    (fun tc h => (teamsToStrike_entries scores rs tc h).imp
      (fun r hr => ⟨hr.1, hr.2.1⟩))

lemma strikeStep_codes (week : Nat) (scores : List (String × Score))
    (acc : List KORMTeamResult × List String) (tc : String) :
    (strikeStep week scores acc tc).1.map (·.team_code) = acc.1.map (·.team_code) := by
  unfold strikeStep
  rcases h : acc.1.find? (fun r => r.team_code == tc) with _ | r
  · rw [h]
  · rw [h]
    have hrc : r.team_code = tc := by simpa using List.find?_some h
    dsimp only
    simp only [List.map_map]
    apply List.map_congr_left
    intro x hx
    by_cases hb : (x.team_code == tc) = true
    · simp only [Function.comp_apply, if_pos hb, struckUpdate_team_code]
      rw [hrc]
      exact ((by simpa using hb : x.team_code = tc)).symm
    · have hne : x.team_code ≠ tc := by simpa using hb
      simp [Function.comp_apply, hne]

lemma strikeFold_codes (week : Nat) (scores : List (String × Score)) :
    ∀ (ts : List String) (acc : List KORMTeamResult × List String),
      (ts.foldl (strikeStep week scores) acc).1.map (·.team_code)
        = acc.1.map (·.team_code)
  | [], _ => rfl
  | tc :: rest, acc => by
    rw [List.foldl_cons]
    rw [strikeFold_codes week scores rest (strikeStep week scores acc tc),
      strikeStep_codes]

lemma process_korm_week_codes (week : Nat) (scores : List (String × Score))
    (rs : List KORMTeamResult) :
    (process_korm_week week scores rs).2.map (·.team_code) = rs.map (·.team_code) := by
  rw [process_korm_week_snd, strikeFold_codes]

/-! ## The per-team state-machine invariant -/

/-- The running state-machine invariant of one team: strike count drives the
status, and the elimination week is the second strike's week. -/
def TeamStateInv (r : KORMTeamResult) : Prop :=
  r.strikes.length ≤ 2 ∧
  (r.status = "eliminated" ↔ r.strikes.length = 2) ∧
  (r.status = "on_notice" ↔ r.strikes.length = 1) ∧
  (∀ w, r.elimination_week = some w →
    r.status = "eliminated" ∧ (r.strikes.map (·.week))[1]? = some w) ∧
  (r.elimination_week = none → r.status ≠ "eliminated")

lemma teamStateInv_init (t : String) : TeamStateInv (initTeamResult t) := by
  unfold TeamStateInv initTeamResult
  refine ⟨by simp, by simp, by simp, by simp, by simp⟩

lemma teamStateInv_struck (week : Nat) (scores : List (String × Score))
    (r : KORMTeamResult) (hinv : TeamStateInv r) (hne : r.status ≠ "eliminated") :
    TeamStateInv (struckUpdate week scores r) := by
  obtain ⟨hle, helim, hnotice, hsome, hnone⟩ := hinv
  have hlen : r.strikes.length ≤ 1 := by
    rcases Nat.lt_or_ge r.strikes.length 2 with h | h
    · omega
    · exact absurd (helim.mpr (by omega)) hne
  have hwk : r.elimination_week = none := by
    rcases h : r.elimination_week with _ | w
    · rfl
    · exact absurd (hsome w h).1 hne
  rcases Nat.lt_or_ge r.strikes.length 1 with h0 | h1
  · have h00 : r.strikes.length = 0 := by omega
    have hnil : r.strikes = [] := List.length_eq_zero.mp h00
    rw [struckUpdate_of_no_strikes week scores r h00]
    unfold TeamStateInv
    refine ⟨by simp [hnil], by simp [hnil], by simp [hnil], ?_, by simp⟩
    intro w hw
    rw [hwk] at hw
    exact absurd hw (by simp)
  · have h11 : r.strikes.length = 1 := by omega
    obtain ⟨s0, hs0⟩ := List.length_eq_one.mp h11
    rw [struckUpdate_of_strikes_pos week scores r h1]
    unfold TeamStateInv
    refine ⟨by simp [hs0], by simp [hs0], by simp [hs0], ?_, by simp⟩
    intro w hw
    have hww : w = week := by
      simpa using hw.symm
    subst hww
    exact ⟨rfl, by simp [hs0, newStrike]⟩

/-- Team states reachable from the season-start state (one fresh
`KORMTeamResult` per distinct roster code — the week-1 dict keys) by
repeatedly processing weeks with `process_korm_week`. -/
inductive ReachableTeamState : List KORMTeamResult → Prop
  | init (teams : List String) (hnd : teams.Nodup) :
      ReachableTeamState (teams.map initTeamResult)
  | step (week : Nat) (scores : List (String × Score)) (trs : List KORMTeamResult) :
      ReachableTeamState trs →
      ReachableTeamState (process_korm_week week scores trs).2

lemma reachable_spec (trs : List KORMTeamResult) (h : ReachableTeamState trs) :
    (trs.map (·.team_code)).Nodup ∧ ∀ r ∈ trs, TeamStateInv r := by
  induction h with
  | init teams hnd =>
      constructor
      · have : (teams.map initTeamResult).map (·.team_code) = teams := by
          rw [List.map_map]
          exact (List.map_congr_left (fun t _ => rfl)).trans (List.map_id teams)
        rw [this]
        exact hnd
      · intro r hr
        obtain ⟨t, _, ht⟩ := List.mem_map.mp hr
        exact ht ▸ teamStateInv_init t
  | step week scores trs _ ih =>
      obtain ⟨hnd, hinv⟩ := ih
      constructor
      · rw [process_korm_week_codes]
        exact hnd
      · rw [process_korm_week_closed week scores trs hnd]
        intro r2 hr2
        obtain ⟨r, hr, hmap⟩ := List.mem_map.mp hr2
        by_cases hmem : r.team_code ∈ teamsToStrike scores trs
        · obtain ⟨x, hx, hxc, hxne⟩ := teamsToStrike_entries scores trs _ hmem
          have hx2 : x = r := List.inj_on_of_nodup_map hnd hx hr hxc
          rw [← hmap, if_pos hmem]
          exact teamStateInv_struck week scores r (hinv r hr) (hx2 ▸ hxne)
        · rw [← hmap, if_neg hmem]
          exact hinv r hr

lemma strikeCountOf_pos (m : String) : 1 ≤ strikeCountOf m := by
  unfold strikeCountOf
  split <;> omega

lemma struckUpdate_strikes (week : Nat) (scores : List (String × Score))
    (r : KORMTeamResult) :
    (struckUpdate week scores r).strikes = r.strikes ++ [newStrike week scores r] := by
  simp only [struckUpdate, newStrike]
  split_ifs <;> rfl

lemma teamsToStrike_scored (scores : List (String × Score)) (rs : List KORMTeamResult) :
    ∀ tc ∈ teamsToStrike scores rs, (lookupScore scores tc).isSome := by
  intro tc htc
  simp only [teamsToStrike] at htc
  rcases h : (sortedTeams scores rs)[strikeCountOf (strikeModeOf (activeTeams rs).length) - 1]?
    with _ | thr
  · rw [h] at htc
    simp at htc
  · rw [h] at htc
    simp only [List.mem_map] at htc
    obtain ⟨p, hp, hfst⟩ := htc
    have hp2 : p ∈ activeScores scores rs :=
      (mem_sortedTeams scores rs p).mp (List.mem_of_mem_filter hp)
    have hp3 := (mem_activeScores scores rs p.1 p.2).mp (by simpa using hp2)
    rw [← hfst, hp3.2]
    rfl

/-- **C5.** In every invocation of `process_korm_week`, the returned
`strike_mode` is `"2-strike"` iff `active_count_start ≥ 5` and `"1-strike"`
otherwise, where `active_count_start` is recomputed that week from the
current non-eliminated team count (not fixed at season start). -/
theorem C5_strike_mode (week : Nat) (scores : List (String × Score))
    (trs : List KORMTeamResult) :
    ((process_korm_week week scores trs).1.strike_mode = "2-strike"
      ↔ 5 ≤ (process_korm_week week scores trs).1.active_count_start) ∧
    (¬ 5 ≤ (process_korm_week week scores trs).1.active_count_start →
      (process_korm_week week scores trs).1.strike_mode = "1-strike") ∧
    (process_korm_week week scores trs).1.active_count_start
      = (trs.filter (fun r => r.status != "eliminated")).length := by
  have hcount : (process_korm_week week scores trs).1.active_count_start
      = (trs.filter (fun r => r.status != "eliminated")).length := by
    rw [process_korm_week_active_start]
    unfold activeTeams
    rw [List.length_map]
  refine ⟨?_, ?_, hcount⟩
  · rw [process_korm_week_strike_mode, process_korm_week_active_start]
    unfold strikeModeOf
    by_cases h : 5 ≤ (activeTeams trs).length
    · rw [if_pos h]
      simp [h]
    · rw [if_neg h]
      simp [h]
  · intro h
    rw [process_korm_week_strike_mode]
    rw [process_korm_week_active_start] at h
    unfold strikeModeOf
    rw [if_neg h]

/-- **C6.** A non-eliminated team absent from the week's score set is still
counted in `active_count_start` (it is in the active-team list whose length
is that count, and so feeds the strike-mode decision), is excluded from the
week's sorted score lists, can never be struck that week, and its
`KORMTeamResult` is left unchanged.  (The model is total, so no error is
raised; in the source no `scores[...]` access happens for such a team.) -/
theorem C6_absent_team (week : Nat) (scores : List (String × Score))
    (trs : List KORMTeamResult) (t : KORMTeamResult)
    (hnd : (trs.map (·.team_code)).Nodup) (ht : t ∈ trs)
    (hact : t.status ≠ "eliminated")
    (habs : lookupScore scores t.team_code = none) :
    t.team_code ∈ activeTeams trs ∧
    (process_korm_week week scores trs).1.active_count_start = (activeTeams trs).length ∧
    (∀ q, (t.team_code, q) ∉ sortedTeams scores trs) ∧
    (∀ q, (t.team_code, q) ∉ (process_korm_week week scores trs).1.scores) ∧
    t.team_code ∉ (process_korm_week week scores trs).1.strikes_given ∧
    t ∈ (process_korm_week week scores trs).2 ∧
    (∀ r2 ∈ (process_korm_week week scores trs).2, r2.team_code = t.team_code → r2 = t) := by
  have hmemact : t.team_code ∈ activeTeams trs :=
    (mem_activeTeams trs t.team_code).mpr ⟨t, ht, rfl, hact⟩
  have hnotscore : ∀ q, (t.team_code, q) ∉ activeScores scores trs := by
    intro q hq
    have := ((mem_activeScores scores trs t.team_code q).mp hq).2
    rw [habs] at this
    exact Option.noConfusion this
  have hnotstruck : t.team_code ∉ teamsToStrike scores trs := by
    intro hmem
    have := teamsToStrike_scored scores trs t.team_code hmem
    rw [habs] at this
    exact Bool.noConfusion this
  have hclosed := process_korm_week_closed week scores trs hnd
  refine ⟨hmemact, process_korm_week_active_start week scores trs, ?_, ?_, ?_, ?_, ?_⟩
  · intro q hq
    exact hnotscore q ((mem_sortedTeams scores trs _).mp hq)
  · intro q hq
    exact hnotscore q ((List.perm_insertionSort scoreDesc _).mem_iff.mp hq)
  · rw [process_korm_week_strikes_given]
    exact hnotstruck
  · rw [hclosed]
    have : (if t.team_code ∈ teamsToStrike scores trs
        then struckUpdate week scores t else t) = t := if_neg hnotstruck
    exact this ▸ List.mem_map_of_mem _ ht
  · intro r2 hr2 hcode
    rw [hclosed] at hr2
    obtain ⟨r, hr, hmap⟩ := List.mem_map.mp hr2
    have hrcode : r.team_code = t.team_code := by
      rw [← hcode, ← hmap]
      by_cases hb : r.team_code ∈ teamsToStrike scores trs
      · rw [if_pos hb, struckUpdate_team_code]
      · rw [if_neg hb]
    have hrt : r = t := List.inj_on_of_nodup_map hnd hr ht hrcode
    subst hrt
    rw [← hmap, if_neg hnotstruck]

/-- The spec's worked example: six active teams. -/
def exScores6 : List (String × Score) :=
  [("A", 100), ("B", 90), ("C", 70), ("D", 70), ("E", 70), ("F", 50)]

def exTeams6 : List KORMTeamResult :=
  ["A", "B", "C", "D", "E", "F"].map initTeamResult

/-- **C2.** When at least `k` active teams have scores (`k` = 2 in 2-strike
mode, 1 in 1-strike mode), the struck teams are exactly the scored active
teams whose score is `≤` the `k`-th lowest score (the entry at 0-indexed
`k - 1` of the ascending-sorted list); with fewer than `k` scored teams no
team is struck.  On the worked example the struck set is exactly
`{F, C, D, E}` (four teams, not two). -/
theorem C2_strike_threshold (week : Nat) (scores : List (String × Score))
    (trs : List KORMTeamResult) :
    (strikeCountOf (strikeModeOf (activeTeams trs).length)
        ≤ (sortedTeams scores trs).length →
      ∀ t : String, t ∈ (process_korm_week week scores trs).1.strikes_given ↔
        ∃ q thr, t ∈ activeTeams trs ∧ lookupScore scores t = some q ∧
          (sortedTeams scores trs)[strikeCountOf (strikeModeOf (activeTeams trs).length) - 1]?
            = some thr ∧ q ≤ thr.2) ∧
    ((sortedTeams scores trs).length
        < strikeCountOf (strikeModeOf (activeTeams trs).length) →
      (process_korm_week week scores trs).1.strikes_given = []) ∧
    List.Pairwise scoreAsc (sortedTeams scores trs) ∧
    (process_korm_week 1 exScores6 exTeams6).1.strikes_given = ["F", "C", "D", "E"] := by
  refine ⟨?_, ?_, ?_, by decide⟩
  · intro hk t
    rw [process_korm_week_strikes_given]
    have hkpos := strikeCountOf_pos (strikeModeOf (activeTeams trs).length)
    have hlt : strikeCountOf (strikeModeOf (activeTeams trs).length) - 1
        < (sortedTeams scores trs).length := by omega
    obtain ⟨thr0, hthr0⟩ :
        ∃ p, (sortedTeams scores trs)[strikeCountOf
          (strikeModeOf (activeTeams trs).length) - 1]? = some p :=
      ⟨_, List.getElem?_eq_getElem hlt⟩
    simp only [teamsToStrike]
    rw [hthr0]
    constructor
    · intro htc
      simp only [List.mem_map] at htc
      obtain ⟨p, hp, hfst⟩ := htc
      have hp1 : p ∈ sortedTeams scores trs := List.mem_of_mem_filter hp
      have hp2 : p ∈ activeScores scores trs := (mem_sortedTeams scores trs p).mp hp1
      have hp3 := (mem_activeScores scores trs p.1 p.2).mp (by simpa using hp2)
      have hle : p.2 ≤ thr0.2 := by
        have := List.of_mem_filter hp
        simpa using this
      exact ⟨p.2, thr0, hfst ▸ hp3.1, hfst ▸ hp3.2, rfl, hle⟩
    · rintro ⟨q, thr, hat, hlook, hthr, hle⟩
      have hthr0eq : thr = thr0 := (Option.some.inj hthr).symm
      subst hthr0eq
      have hmem : (t, q) ∈ activeScores scores trs :=
        (mem_activeScores scores trs t q).mpr ⟨hat, hlook⟩
      have hmem2 : (t, q) ∈ sortedTeams scores trs :=
        (mem_sortedTeams scores trs (t, q)).mpr hmem
      refine List.mem_map.mpr ⟨(t, q), List.mem_filter.mpr ⟨hmem2, by simpa using hle⟩, rfl⟩
  · intro hlen
    rw [process_korm_week_strikes_given]
    have hnone : (sortedTeams scores trs)[strikeCountOf
        (strikeModeOf (activeTeams trs).length) - 1]? = none :=
      List.getElem?_eq_none (by omega)
    simp only [teamsToStrike]
    rw [hnone]
  · exact List.sorted_insertionSort scoreAsc (activeScores scores trs)

/-- Witness for C2 at the worked example (`k = 2 ≤ 6` scored teams). -/
theorem C2_witness :
    strikeCountOf (strikeModeOf (activeTeams exTeams6).length)
        ≤ (sortedTeams exScores6 exTeams6).length ∧
    (∀ t : String, t ∈ (process_korm_week 1 exScores6 exTeams6).1.strikes_given ↔
      ∃ q thr, t ∈ activeTeams exTeams6 ∧ lookupScore exScores6 t = some q ∧
        (sortedTeams exScores6 exTeams6)[strikeCountOf
          (strikeModeOf (activeTeams exTeams6).length) - 1]? = some thr ∧ q ≤ thr.2) :=
  ⟨by decide, (C2_strike_threshold 1 exScores6 exTeams6).1 (by decide)⟩

/-- **C10.** For every returned `KORMWeekResult` (on a dict-shaped state,
distinct team codes), `active_count_end` equals `active_count_start` minus
the number of eliminations, and the eliminations list is a subset of
`strikes_given`. -/
theorem C10_week_counts (week : Nat) (scores : List (String × Score))
    (trs : List KORMTeamResult) (hnd : (trs.map (·.team_code)).Nodup) :
    (process_korm_week week scores trs).1.active_count_end
      = (process_korm_week week scores trs).1.active_count_start
        - (process_korm_week week scores trs).1.eliminations.length ∧
    (process_korm_week week scores trs).1.eliminations
      ⊆ (process_korm_week week scores trs).1.strikes_given := by
  have hts1 := teamsToStrike_nodup scores trs hnd
  have hts2 := teamsToStrike_entries scores trs
  have hcount := strikeFold_count week scores (teamsToStrike scores trs) trs [] hnd hts1 hts2
  have hsnd := strikeFold_snd week scores (teamsToStrike scores trs) trs [] hnd hts1
    (fun tc h => (hts2 tc h).imp (fun r hr => ⟨hr.1, hr.2.1⟩))
  constructor
  · rw [process_korm_week_active_end, process_korm_week_active_start,
      process_korm_week_eliminations, process_korm_week_snd]
    unfold activeTeams
    rw [List.length_map]
    simp only [List.length_nil] at hcount
    omega
  · rw [process_korm_week_eliminations, process_korm_week_strikes_given, hsnd]
    simp only [List.nil_append]
    exact fun x hx => List.mem_of_mem_filter hx

/-- Witness for C10 at the worked six-team example. -/
theorem C10_witness :
    ((exTeams6.map (·.team_code)).Nodup) ∧
    ((process_korm_week 1 exScores6 exTeams6).1.active_count_end
      = (process_korm_week 1 exScores6 exTeams6).1.active_count_start
        - (process_korm_week 1 exScores6 exTeams6).1.eliminations.length ∧
    (process_korm_week 1 exScores6 exTeams6).1.eliminations
      ⊆ (process_korm_week 1 exScores6 exTeams6).1.strikes_given) :=
  ⟨by decide, C10_week_counts 1 exScores6 exTeams6 (by decide)⟩

/-- Witness for C6: team `B` is on the roster but absent from the week's
score set. -/
theorem C6_witness :
    (((["A", "B"].map initTeamResult).map (·.team_code)).Nodup) ∧
    ((initTeamResult "B").team_code ∈ activeTeams (["A", "B"].map initTeamResult) ∧
      (∀ q, ((initTeamResult "B").team_code, q)
        ∉ sortedTeams [("A", 10)] (["A", "B"].map initTeamResult)) ∧
      (initTeamResult "B").team_code
        ∉ (process_korm_week 1 [("A", 10)] (["A", "B"].map initTeamResult)).1.strikes_given ∧
      initTeamResult "B" ∈ (process_korm_week 1 [("A", 10)] (["A", "B"].map initTeamResult)).2) := by
  have h := C6_absent_team 1 [("A", 10)] (["A", "B"].map initTeamResult)
    (initTeamResult "B") (by decide) (by decide) (by decide) (by decide)
  exact ⟨by decide, h.1, h.2.2.1, h.2.2.2.2.1, h.2.2.2.2.2.1⟩

/-- A 2-team roster and the states after processing weeks 1 and 2 (team `B`
is lowest both weeks, so it is struck in week 1 and eliminated in week 2). -/
def exInit2 : List KORMTeamResult := ["A", "B"].map initTeamResult

def exAfterW1 : List KORMTeamResult :=
  (process_korm_week 1 [("A", 10), ("B", 5)] exInit2).2

def exAfterW2 : List KORMTeamResult :=
  (process_korm_week 2 [("A", 10), ("B", 5)] exAfterW1).2

/-- **C1.** For every team state reachable by running `process_korm_week`
any number of times from the initial all-active zero-strike state:
`status = "eliminated"` iff the team has at least 2 strikes,
`status = "on_notice"` iff it has exactly 1 strike, and `elimination_week`
is set iff the team is eliminated, in which case it equals the week number
of the team's second strike. -/
theorem C1_team_state_invariant (trs : List KORMTeamResult)
    (h : ReachableTeamState trs) :
    ∀ r ∈ trs,
      (r.status = "eliminated" ↔ 2 ≤ r.strikes.length) ∧
      (r.status = "on_notice" ↔ r.strikes.length = 1) ∧
      (r.elimination_week.isSome ↔ r.status = "eliminated") ∧
      (∀ w, r.elimination_week = some w → r.strike_weeks[1]? = some w) := by
  intro r hr
  obtain ⟨-, hinv⟩ := reachable_spec trs h
  obtain ⟨hle, helim, hnotice, hsome, hnone⟩ := hinv r hr
  refine ⟨?_, hnotice, ?_, ?_⟩
  · constructor
    · intro hs
      have := helim.mp hs
      omega
    · intro h2
      exact helim.mpr (by omega)
  · constructor
    · intro hs
      obtain ⟨w, hw⟩ := Option.isSome_iff_exists.mp hs
      exact (hsome w hw).1
    · intro hs
      rcases hwk : r.elimination_week with _ | w
      · exact absurd hs (hnone hwk)
      · rfl
  · intro w hw
    exact (hsome w hw).2

/-- Witness for C1: the state after two processed weeks of a 2-team season,
in which team `B` has just been eliminated. -/
theorem C1_witness :
    (["A", "B"] : List String).Nodup ∧
    ∀ r ∈ exAfterW2,
      (r.status = "eliminated" ↔ 2 ≤ r.strikes.length) ∧
      (r.status = "on_notice" ↔ r.strikes.length = 1) ∧
      (r.elimination_week.isSome ↔ r.status = "eliminated") ∧
      (∀ w, r.elimination_week = some w → r.strike_weeks[1]? = some w) :=
  ⟨by decide,
   C1_team_state_invariant exAfterW2
    (ReachableTeamState.step 2 _ _ (ReachableTeamState.step 1 _ _
      (ReachableTeamState.init ["A", "B"] (by decide))))⟩

/-- **C9.** Every reachable team state has at most 2 strikes, an eliminated
team has exactly 2, and one further processed week grows each team's strike
list by at most one — an eliminated team's entry is left entirely
unchanged. -/
theorem C9_strike_bound (trs : List KORMTeamResult) (h : ReachableTeamState trs) :
    (∀ r ∈ trs, r.strikes.length ≤ 2 ∧ (r.status = "eliminated" → r.strikes.length = 2)) ∧
    (∀ (week : Nat) (scores : List (String × Score)),
      (process_korm_week week scores trs).2.length = trs.length ∧
      ∀ i, i < trs.length →
        ∃ r r2, trs[i]? = some r ∧ (process_korm_week week scores trs).2[i]? = some r2 ∧
          r2.strikes.length ≤ r.strikes.length + 1 ∧
          (r.status = "eliminated" → r2 = r)) := by
  obtain ⟨hnd, hinv⟩ := reachable_spec trs h
  constructor
  · intro r hr
    obtain ⟨hle, helim, -, -, -⟩ := hinv r hr
    exact ⟨hle, fun hs => helim.mp hs⟩
  · intro week scores
    have hclosed := process_korm_week_closed week scores trs hnd
    constructor
    · rw [hclosed, List.length_map]
    · intro i hi
      obtain ⟨r, hr⟩ : ∃ r, trs[i]? = some r := ⟨_, List.getElem?_eq_getElem hi⟩
      have hrmem : r ∈ trs := List.getElem?_mem hr
      refine ⟨r, _, hr, by rw [hclosed, List.getElem?_map, hr]; rfl, ?_, ?_⟩
      · dsimp only
        by_cases hb : r.team_code ∈ teamsToStrike scores trs
        · rw [if_pos hb, struckUpdate_strikes]
          simp
        · rw [if_neg hb]
          omega
      · intro hs
        have hb : r.team_code ∉ teamsToStrike scores trs := by
          intro hmem
          obtain ⟨x, hx, hxc, hxne⟩ := teamsToStrike_entries scores trs _ hmem
          exact hxne ((List.inj_on_of_nodup_map hnd hx hrmem hxc) ▸ hs)
        dsimp only
        rw [if_neg hb]

/-- Witness for C9: the state after two processed weeks of a 2-team season. -/
theorem C9_witness :
    (∀ r ∈ exAfterW2, r.strikes.length ≤ 2 ∧
      (r.status = "eliminated" → r.strikes.length = 2)) ∧
    ((process_korm_week 3 [("A", 10), ("B", 5)] exAfterW2).2.length = exAfterW2.length ∧
      ∀ i, i < exAfterW2.length →
        ∃ r r2, exAfterW2[i]? = some r ∧
          (process_korm_week 3 [("A", 10), ("B", 5)] exAfterW2).2[i]? = some r2 ∧
          r2.strikes.length ≤ r.strikes.length + 1 ∧
          (r.status = "eliminated" → r2 = r)) :=
  ⟨(C9_strike_bound exAfterW2
      (ReachableTeamState.step 2 _ _ (ReachableTeamState.step 1 _ _
        (ReachableTeamState.init ["A", "B"] (by decide))))).1,
   (C9_strike_bound exAfterW2
      (ReachableTeamState.step 2 _ _ (ReachableTeamState.step 1 _ _
        (ReachableTeamState.init ["A", "B"] (by decide))))).2 3 [("A", 10), ("B", 5)]⟩

/-! ## Season-level lemmas -/

lemma init_codes (teams : List String) :
    (teams.map initTeamResult).map (·.team_code) = teams := by
  rw [List.map_map]
  exact (List.map_congr_left (fun t _ => rfl)).trans (List.map_id teams)

/-- Writing placed records back over the dict entries with the same code
preserves the code sequence. -/
lemma map_writeback_codes (placed rs : List KORMTeamResult) :
    (rs.map (fun r => (placed.find? (fun p => p.team_code == r.team_code)).getD r)).map
        (·.team_code)
      = rs.map (·.team_code) := by
  rw [List.map_map]
  apply List.map_congr_left
  intro r hr
  dsimp only [Function.comp]
  rcases hf : placed.find? (fun p => p.team_code == r.team_code) with _ | p
  · rw [hf]
    rfl
  · rw [hf]
    simpa using List.find?_some hf

lemma assign_final_standings_codes (year : Int) (ws : WeeklyScores)
    (rs : List KORMTeamResult) :
    (assign_final_standings year ws rs).map (·.team_code) = rs.map (·.team_code) :=
  map_writeback_codes _ rs

lemma runWeeks_codes (ws : WeeklyScores) :
    ∀ (weekList : List Nat) (trs : List KORMTeamResult),
      (runWeeks ws trs weekList).1.map (·.team_code) = trs.map (·.team_code)
  | [], trs => rfl
  | w :: rest, trs => by
    unfold runWeeks
    rcases hl : lookupWeek ws w with _ | scores
    · exact runWeeks_codes ws rest trs
    · dsimp only
      by_cases hc : (trs.filter (fun r => r.status != "eliminated")).length ≤ 1
      · rw [if_pos hc]
      · rw [if_neg hc]
        dsimp only
        rw [runWeeks_codes ws rest, process_korm_week_codes]

/-- **C7.** `process_korm_season` errors iff week 1 is absent from the
score data (the model is pure, so nothing is mutated in that case); with
week 1 present the roster is exactly week 1's team codes and the final team
dict has exactly those codes in that order (no team is ever added); any
other missing week is skipped silently, leaving the state untouched for the
remaining weeks. -/
theorem C7_season_init (year : Int) (ws : WeeklyScores) :
    ((∃ e, process_korm_season year ws = .error e) ↔ lookupWeek ws 1 = none) ∧
    (∀ res, process_korm_season year ws = .ok res →
      ∀ w1, lookupWeek ws 1 = some w1 →
        res.teams = w1.map (·.1) ∧
        res.team_results.map (·.team_code) = res.teams) ∧
    (∀ (trs : List KORMTeamResult) (w : Nat) (rest : List Nat),
      lookupWeek ws w = none →
      runWeeks ws trs (w :: rest) = runWeeks ws trs rest) := by
  refine ⟨?_, ?_, ?_⟩
  · rcases hl : lookupWeek ws 1 with _ | w1
    · constructor
      · intro _
        rfl
      · intro _
        refine ⟨"No week 1 data", ?_⟩
        simp only [process_korm_season]
        rw [hl]
    · constructor
      · rintro ⟨e, he⟩
        simp only [process_korm_season] at he
        rw [hl] at he
        exact Except.noConfusion he
      · intro h
        exact Option.noConfusion h
  · intro res hok w1 hl
    simp only [process_korm_season] at hok
    rw [hl] at hok
    dsimp only at hok
    have hres := (Except.ok.inj hok).symm
    subst hres
    refine ⟨rfl, ?_⟩
    show (assign_final_standings year ws _).map (·.team_code) = _
    rw [assign_final_standings_codes, runWeeks_codes, init_codes]
  · intro trs w rest hnone
    conv_lhs => rw [runWeeks]
    rw [hnone]

/-- A 2-team 2023 season in which team `B` is struck in week 1 and
eliminated in week 2, and no score data exists for window weeks 3..14. -/
def c3ws : WeeklyScores := [(1, [("A", 10), ("B", 5)]), (2, [("A", 10), ("B", 5)])]

/-- The result `process_korm_season 2023 c3ws` actually computes. -/
def c3res : KORMSeasonResult :=
  { season := 2023, korm_window := (1, 14), entry_fee := 100, pool := 1200,
    teams := ["A", "B"],
    weeks :=
      [⟨1, 2, "1-strike", [("A", 10), ("B", 5)], ["B"], [], 2⟩,
       ⟨2, 2, "1-strike", [("A", 10), ("B", 5)], ["B"], ["B"], 1⟩],
    team_results :=
      [⟨"A", [], "active", none, some 1, 800⟩,
       ⟨"B", [⟨1, 5⟩, ⟨2, 5⟩], "eliminated", some 2, some 2, 300⟩],
    winner := some "A", ended_early := false }

instance {ε α : Type} [DecidableEq ε] [DecidableEq α] : DecidableEq (Except ε α)
  | .error x, .error y =>
    if h : x = y then .isTrue (by rw [h]) else .isFalse (by simp [h])
  | .ok x, .ok y =>
    if h : x = y then .isTrue (by rw [h]) else .isFalse (by simp [h])
  | .error _, .ok _ => .isFalse (by simp)
  | .ok _, .error _ => .isFalse (by simp)

/-- Counterexample to C3 as stated: the 2023 window is weeks 1..14 and
after processing week 2 only one team is non-eliminated, so at the start of
window week 3 the active count is ≤ 1; yet the season ends with
`ended_early = false`, because the loop skips score-less weeks *before* the
early-termination check and weeks 3..14 have no score data. -/
theorem C3_counterexample :
    process_korm_season 2023 c3ws = .ok c3res ∧
    (SEASON_CONFIG 2023).map (·.weeks) = some (1, 14) ∧
    (c3res.team_results.filter (fun r => r.status != "eliminated")).length = 1 ∧
    c3res.weeks.map (·.week) = [1, 2] ∧
    (∀ w, 3 ≤ w → lookupWeek c3ws w = none) ∧
    c3res.ended_early = false := by
  refine ⟨by decide, by decide, by decide, by decide, ?_, by decide⟩
  intro w hw
  unfold lookupWeek c3ws
  rw [List.find?_cons_of_neg _ (by simp; omega),
    List.find?_cons_of_neg _ (by simp; omega)]
  rfl

/-- **C3 (amended).** For every window week that is *present* in the score
data: if the loop reaches it with at most one non-eliminated team, the
season loop stops immediately with `ended_early = true` and processes no
further weeks.  A window week absent from the score data is skipped
*before* this check, so if every remaining window week is absent the loop
ends normally with `ended_early = false`. -/
theorem C3_early_termination (ws : WeeklyScores) (trs : List KORMTeamResult)
    (weekList : List Nat)
    (hact : (trs.filter (fun r => r.status != "eliminated")).length ≤ 1) :
    ((∃ w ∈ weekList, (lookupWeek ws w).isSome) →
      runWeeks ws trs weekList = (trs, [], true)) ∧
    ((∀ w ∈ weekList, lookupWeek ws w = none) →
      runWeeks ws trs weekList = (trs, [], false)) := by
  induction weekList with
  | nil =>
    constructor
    · rintro ⟨w, hw, _⟩
      exact absurd hw (List.not_mem_nil w)
    · intro _
      rfl
  | cons w rest ih =>
    constructor
    · rintro ⟨w2, hw2, hsome⟩
      conv_lhs => rw [runWeeks]
      rcases hl : lookupWeek ws w with _ | scores
      · rcases List.mem_cons.mp hw2 with h | h
        · subst h
          rw [hl] at hsome
          exact absurd hsome (by simp)
        · exact ih.1 ⟨w2, h, hsome⟩
      · dsimp only
        rw [if_pos hact]
    · intro hall
      conv_lhs => rw [runWeeks]
      rcases hl : lookupWeek ws w with _ | scores
      · exact ih.2 (fun w2 h => hall w2 (List.mem_cons_of_mem _ h))
      · have hcontra := hall w (List.mem_cons_self w rest)
        rw [hcontra] at hl
        exact Option.noConfusion hl

/-- Witness for the amended C3 at the concrete 2023 state: with one team
left, a present week stops the loop with `ended_early = true`, while a run
of absent weeks falls through with `ended_early = false`. -/
theorem C3_witness :
    ((c3res.team_results.filter (fun r => r.status != "eliminated")).length ≤ 1) ∧
    runWeeks c3ws c3res.team_results [1, 2] = (c3res.team_results, [], true) ∧
    runWeeks c3ws c3res.team_results [3, 4] = (c3res.team_results, [], false) :=
  ⟨by decide,
   (C3_early_termination c3ws c3res.team_results [1, 2] (by decide)).1
     ⟨1, by decide, by decide⟩,
   (C3_early_termination c3ws c3res.team_results [3, 4] (by decide)).2 (by decide)⟩

/-! ## Final-standings lemmas -/

lemma assignPlaces_append (payouts : Nat → Nat) :
    ∀ (l1 l2 : List KORMTeamResult) (n : Nat),
      assignPlaces payouts n (l1 ++ l2)
        = assignPlaces payouts n l1 ++ assignPlaces payouts (n + l1.length) l2
  | [], l2, n => by simp [assignPlaces]
  | r :: rest, l2, n => by
    simp only [List.cons_append, assignPlaces, List.append_eq]
    rw [assignPlaces_append payouts rest l2 (n + 1)]
    have h : n + 1 + rest.length = n + (r :: rest).length := by
      simp only [List.length_cons]
      omega
    rw [h]

lemma assignPlaces_mem (payouts : Nat → Nat) :
    ∀ (l : List KORMTeamResult) (n : Nat) (x : KORMTeamResult),
      x ∈ assignPlaces payouts n l →
      ∃ r ∈ l, ∃ p, n ≤ p ∧ p < n + l.length ∧
        x = { r with final_place := some p, payout := payouts p }
  | [], n, x => by simp [assignPlaces]
  | r :: rest, n, x => by
    intro hx
    simp only [assignPlaces] at hx
    rcases List.mem_cons.mp hx with h | h
    · refine ⟨r, List.mem_cons_self r rest, n, le_refl n, ?_, h⟩
      simp only [List.length_cons]
      omega
    · obtain ⟨r2, hr2, p, hp1, hp2, he⟩ := assignPlaces_mem payouts rest (n + 1) x h
      refine ⟨r2, List.mem_cons_of_mem _ hr2, p, by omega, ?_, he⟩
      simp only [List.length_cons]
      omega

lemma assignPlaces_places (payouts : Nat → Nat) :
    ∀ (l : List KORMTeamResult) (n : Nat),
      (assignPlaces payouts n l).filterMap (·.final_place) = List.range' n l.length
  | [], n => rfl
  | r :: rest, n => by
    simp only [assignPlaces, List.filterMap_cons]
    rw [assignPlaces_places payouts rest (n + 1)]
    simp [List.range'_succ]

lemma assignPlaces_codes (payouts : Nat → Nat) :
    ∀ (l : List KORMTeamResult) (n : Nat),
      (assignPlaces payouts n l).map (·.team_code) = l.map (·.team_code)
  | [], _ => rfl
  | r :: rest, n => by
    simp only [assignPlaces, List.map_cons]
    rw [assignPlaces_codes payouts rest (n + 1)]

/-- Every record placed from the concatenation `active ++ eliminated` has a
place, non-eliminated records take places `1..|A|` and eliminated ones
places `|A|+1..|A|+|B|`. -/
lemma placed_dominance (payouts : Nat → Nat) (A B : List KORMTeamResult)
    (hA : ∀ x ∈ A, x.status ≠ "eliminated")
    (hB : ∀ x ∈ B, x.status = "eliminated") :
    ∀ x ∈ assignPlaces payouts 1 (A ++ B),
      ∃ p, x.final_place = some p ∧ 1 ≤ p ∧ p ≤ A.length + B.length ∧
        (x.status ≠ "eliminated" → p ≤ A.length) ∧
        (x.status = "eliminated" → A.length < p) := by
  intro x hx
  rw [assignPlaces_append] at hx
  rcases List.mem_append.mp hx with h | h
  · obtain ⟨r, hr, p, hp1, hp2, he⟩ := assignPlaces_mem payouts A 1 x h
    have hstat : x.status = r.status := by rw [he]
    refine ⟨p, by rw [he], hp1, by omega, fun _ => by omega, ?_⟩
    intro hs
    exact absurd (hstat ▸ hs) (hA r hr)
  · obtain ⟨r, hr, p, hp1, hp2, he⟩ := assignPlaces_mem payouts B (1 + A.length) x h
    have hstat : x.status = r.status := by rw [he]
    refine ⟨p, by rw [he], by omega, by omega, ?_, fun _ => by omega⟩
    intro hne
    exact absurd (hstat ▸ hB r hr) hne

/-- The dominance and completeness properties of `_assign_final_standings`
on a dict with distinct codes: every still-active team is placed strictly
above every eliminated team, and the assigned places are exactly `1..N`. -/
lemma assign_final_standings_spec (year : Int) (ws : WeeklyScores)
    (rs : List KORMTeamResult) (hnd : (rs.map (·.team_code)).Nodup) :
    (∀ x ∈ assign_final_standings year ws rs, ∀ y ∈ assign_final_standings year ws rs,
      x.status ≠ "eliminated" → y.status = "eliminated" →
      ∃ px py, x.final_place = some px ∧ y.final_place = some py ∧ px < py) ∧
    ((assign_final_standings year ws rs).filterMap (·.final_place)).Perm
      (List.range' 1 rs.length) := by
  have hout : assign_final_standings year ws rs
      = rs.map (fun r =>
          ((assignPlaces (if year = 2018 then PAYOUTS_2018 else PAYOUTS) 1
            ((rs.filter (fun r => r.status != "eliminated")).insertionSort
                (activeRank (totalPoints ws))
              ++ (rs.filter (fun r => r.status == "eliminated")).insertionSort
                (elimRank (totalPoints ws)))).find?
            (fun p => p.team_code == r.team_code)).getD r) := rfl
  set payouts := (if year = 2018 then PAYOUTS_2018 else PAYOUTS) with hpay
  set tp := totalPoints ws with htp
  set A := (rs.filter (fun r => r.status != "eliminated")).insertionSort (activeRank tp)
    with hA
  set B := (rs.filter (fun r => r.status == "eliminated")).insertionSort (elimRank tp)
    with hB
  set placed := assignPlaces payouts 1 (A ++ B) with hplaced
  have hAmem : ∀ x ∈ A, x.status ≠ "eliminated" := by
    intro x hx
    rw [hA] at hx
    have h1 := (List.perm_insertionSort _ _).mem_iff.mp hx
    have h2 := List.mem_filter.mp h1
    simpa using h2.2
  have hBmem : ∀ x ∈ B, x.status = "eliminated" := by
    intro x hx
    rw [hB] at hx
    have h1 := (List.perm_insertionSort _ _).mem_iff.mp hx
    have h2 := List.mem_filter.mp h1
    simpa using h2.2
  have hq : rs.filter (fun r => r.status == "eliminated")
      = rs.filter (fun x => !(x.status != "eliminated")) := by
    apply List.filter_congr
    intro x _
    simp [bne]
  have hABperm : (A ++ B).Perm rs := by
    rw [hA, hB]
    refine ((List.perm_insertionSort _ _).append (List.perm_insertionSort _ _)).trans ?_
    rw [hq]
    exact List.filter_append_perm _ rs
  have hABlen : A.length + B.length = rs.length := by
    rw [← List.length_append]
    exact hABperm.length_eq
  have hplacedcodes : placed.map (·.team_code) = (A ++ B).map (·.team_code) := by
    rw [hplaced]
    exact assignPlaces_codes payouts (A ++ B) 1
  have hcodesperm : (placed.map (·.team_code)).Perm (rs.map (·.team_code)) := by
    rw [hplacedcodes]
    exact hABperm.map _
  have hplacednd : (placed.map (·.team_code)).Nodup := hcodesperm.nodup_iff.mpr hnd
  have hfind : ∀ r ∈ rs, ∃ p, placed.find? (fun q => q.team_code == r.team_code) = some p
      ∧ p ∈ placed ∧ p.team_code = r.team_code := by
    intro r hr
    have h1 : r.team_code ∈ placed.map (·.team_code) :=
      hcodesperm.mem_iff.mpr (List.mem_map_of_mem _ hr)
    obtain ⟨q, hq2, hq3⟩ := List.mem_map.mp h1
    exact find?_code_isSome placed r.team_code ⟨q, hq2, hq3⟩
  have houtmem : ∀ x ∈ assign_final_standings year ws rs, x ∈ placed := by
    intro x hx
    rw [hout] at hx
    obtain ⟨r, hr, hmap⟩ := List.mem_map.mp hx
    obtain ⟨p, hp, hpmem, -⟩ := hfind r hr
    rw [hp] at hmap
    exact hmap ▸ hpmem
  have hdom := placed_dominance payouts A B hAmem hBmem
  constructor
  · intro x hx y hy hxs hys
    obtain ⟨px, hpx, -, -, hpxle, -⟩ := hdom x (houtmem x hx)
    obtain ⟨py, hpy, -, -, -, hpygt⟩ := hdom y (houtmem y hy)
    refine ⟨px, py, hpx, hpy, ?_⟩
    have h1 := hpxle hxs
    have h2 := hpygt hys
    omega
  · have hg : ∀ r ∈ rs,
        (placed.find? (fun q => q.team_code == r.team_code)).getD r
          = ((fun c => (placed.find? (fun q => q.team_code == c)).getD (initTeamResult c))
              ∘ (fun p : KORMTeamResult => p.team_code)) r := by
      intro r hr
      obtain ⟨p, hp, -, -⟩ := hfind r hr
      simp only [Function.comp_apply]
      rw [hp]
      rfl
    have hout2 : assign_final_standings year ws rs
        = rs.map ((fun c => (placed.find? (fun q => q.team_code == c)).getD
            (initTeamResult c)) ∘ (fun p : KORMTeamResult => p.team_code)) := by
      rw [hout]
      exact List.map_congr_left hg
    have hfix : placed.map ((fun c => (placed.find? (fun q => q.team_code == c)).getD
        (initTeamResult c)) ∘ (fun p : KORMTeamResult => p.team_code)) = placed := by
      refine (List.map_congr_left ?_).trans (List.map_id placed)
      intro p hp
      simp only [Function.comp_apply]
      rw [find?_code_self placed p hplacednd hp]
      rfl
    have hperm2 : (assign_final_standings year ws rs).Perm placed := by
      rw [hout2, ← List.map_map]
      conv_rhs => rw [← hfix, ← List.map_map]
      exact hcodesperm.symm.map _
    have hfm := hperm2.filterMap (·.final_place)
    have hpl : placed.filterMap (·.final_place) = List.range' 1 rs.length := by
      rw [hplaced, assignPlaces_places, List.length_append, hABlen]
    exact hpl ▸ hfm

lemma assign_final_standings_length (year : Int) (ws : WeeklyScores)
    (rs : List KORMTeamResult) :
    (assign_final_standings year ws rs).length = rs.length :=
  List.length_map rs _

/-- **C4.** In the final standings assigned by `process_korm_season` (on a
roster of distinct team codes), every team whose final status is not
`"eliminated"` has a strictly smaller `final_place` than every eliminated
team, regardless of point totals; and the final places over all teams are
exactly `1..N`. -/
theorem C4_standings_dominance (year : Int) (ws : WeeklyScores)
    (res : KORMSeasonResult) (hok : process_korm_season year ws = .ok res)
    (hnd : res.teams.Nodup) :
    (∀ x ∈ res.team_results, ∀ y ∈ res.team_results,
      x.status ≠ "eliminated" → y.status = "eliminated" →
      ∃ px py, x.final_place = some px ∧ y.final_place = some py ∧ px < py) ∧
    (res.team_results.filterMap (·.final_place)).Perm
      (List.range' 1 res.team_results.length) := by
  rcases hl : lookupWeek ws 1 with _ | w1
  · simp only [process_korm_season] at hok
    rw [hl] at hok
    exact Except.noConfusion hok
  · simp only [process_korm_season] at hok
    rw [hl] at hok
    dsimp only at hok
    have hres := (Except.ok.inj hok).symm
    subst hres
    dsimp only at hnd ⊢
    have hndcodes : (((runWeeks ws ((w1.map (·.1)).map initTeamResult)
        (List.range' ((SEASON_CONFIG year).getD ⟨(1, 14), 100, 1200⟩).weeks.1
          (((SEASON_CONFIG year).getD ⟨(1, 14), 100, 1200⟩).weeks.2 + 1
            - ((SEASON_CONFIG year).getD ⟨(1, 14), 100, 1200⟩).weeks.1))).1).map
        (·.team_code)).Nodup := by
      rw [runWeeks_codes, init_codes]
      exact hnd
    have hspec := assign_final_standings_spec year ws _ hndcodes
    refine ⟨hspec.1, ?_⟩
    have hlen := assign_final_standings_length year ws
      ((runWeeks ws ((w1.map (·.1)).map initTeamResult)
        (List.range' ((SEASON_CONFIG year).getD ⟨(1, 14), 100, 1200⟩).weeks.1
          (((SEASON_CONFIG year).getD ⟨(1, 14), 100, 1200⟩).weeks.2 + 1
            - ((SEASON_CONFIG year).getD ⟨(1, 14), 100, 1200⟩).weeks.1))).1)
    rw [hlen]
    exact hspec.2

/-- Witness for C4 at the concrete 2023 two-team season (`A` active with
place 1, `B` eliminated with place 2). -/
theorem C4_witness :
    process_korm_season 2023 c3ws = .ok c3res ∧ c3res.teams.Nodup ∧
    ((∀ x ∈ c3res.team_results, ∀ y ∈ c3res.team_results,
      x.status ≠ "eliminated" → y.status = "eliminated" →
      ∃ px py, x.final_place = some px ∧ y.final_place = some py ∧ px < py) ∧
    (c3res.team_results.filterMap (·.final_place)).Perm
      (List.range' 1 c3res.team_results.length)) :=
  ⟨by decide, by decide, C4_standings_dominance 2023 c3ws c3res (by decide) (by decide)⟩

/-- A one-week 2019 season used to witness C7. -/
def c7ws : WeeklyScores := [(1, [("A", 3), ("B", 7)])]

/-- The result `process_korm_season 2019 c7ws` actually computes. -/
def c7res : KORMSeasonResult :=
  { season := 2019, korm_window := (1, 13), entry_fee := 100, pool := 1200,
    teams := ["A", "B"],
    weeks := [⟨1, 2, "1-strike", [("B", 7), ("A", 3)], ["A"], [], 2⟩],
    team_results :=
      [⟨"A", [⟨1, 3⟩], "on_notice", none, some 2, 300⟩,
       ⟨"B", [], "active", none, some 1, 800⟩],
    winner := some "B", ended_early := false }

/-- Witness for C7: with no week-1 data the season errors; with week-1 data
the roster is week 1's codes and is never extended; a missing mid-season
week is skipped without touching the state. -/
theorem C7_witness :
    (∃ e, process_korm_season 2019 ([] : WeeklyScores) = .error e) ∧
    (c7res.teams = ([(("A" : String), (3 : Score)), ("B", 7)].map (·.1)) ∧
      c7res.team_results.map (·.team_code) = c7res.teams) ∧
    runWeeks c7ws (["A", "B"].map initTeamResult) [5, 6]
      = runWeeks c7ws (["A", "B"].map initTeamResult) [6] :=
  ⟨(C7_season_init 2019 []).1.mpr rfl,
   (C7_season_init 2019 c7ws).2.1 c7res (by decide) [("A", 3), ("B", 7)] (by decide),
   (C7_season_init 2019 c7ws).2.2 (["A", "B"].map initTeamResult) 5 [6] (by decide)⟩

/-! ## JSON rendering (`generate_korm_json`) -/

/-- One entry of the JSON `weeks` array.  The source serializes
`active_count_start` (as `"active_count"`) but not `active_count_end`. -/
structure KormWeekJson where
  week : Nat
  active_count : Nat
  strike_mode : String
  scores : List (String × Score)
  strikes : List String
  eliminations : List String
deriving DecidableEq

/-- One entry of the JSON `final_standings` array.  The source serializes
`strike_weeks` but not the strikes' scores. -/
structure KormStandingJson where
  place : Option Nat
  team : String
  strikes : Nat
  strike_weeks : List Nat
  status : String
  elimination_week : Option Nat
  payout : Nat
deriving DecidableEq

/-- The JSON document built by `generate_korm_json` (minus the
`"generated"` wall-clock timestamp, which is I/O, not data-model
content). -/
structure KormJson where
  season : Int
  korm_window : Nat × Nat
  entry_fee : Nat
  pool : Nat
  teams : List String
  ended_early : Bool
  weeks : List KormWeekJson
  final_standings : List KormStandingJson
  winner : Option String
deriving DecidableEq

/-- `final_standings` sort key:
`x.final_place if x.final_place else 999` (Python truthiness: `None` and
`0` both fall back to `999`). -/
def placeKey (r : KORMTeamResult) : Nat :=
  match r.final_place with
  | some p => if p = 0 then 999 else p
  | none => 999

def placeRank (a b : KORMTeamResult) : Prop := placeKey a ≤ placeKey b

instance : DecidableRel placeRank :=
  fun a b => inferInstanceAs (Decidable (placeKey a ≤ placeKey b))

/-- `generate_korm_json`. -/
def generate_korm_json (r : KORMSeasonResult) : KormJson :=
  { season := r.season,
    korm_window := r.korm_window,
    entry_fee := r.entry_fee,
    pool := r.pool,
    teams := r.teams,
    ended_early := r.ended_early,
    weeks := r.weeks.map (fun w =>
      ⟨w.week, w.active_count_start, w.strike_mode, w.scores, w.strikes_given,
       w.eliminations⟩),
    final_standings := (r.team_results.insertionSort placeRank).map (fun t =>
      ⟨t.final_place, t.team_code, t.strike_count, t.strike_weeks, t.status,
       t.elimination_week, t.payout⟩),
    winner := r.winner }

/-- Two distinct `KORMSeasonResult`s that serialize to the same JSON: they
differ only in a week's `active_count_end` and in a strike's `score`,
neither of which `generate_korm_json` writes. -/
def c8resA : KORMSeasonResult :=
  { season := 2024, korm_window := (1, 14), entry_fee := 100, pool := 1200,
    teams := ["A"],
    weeks := [⟨1, 1, "1-strike", [("A", 10)], ["A"], [], 1⟩],
    team_results := [⟨"A", [⟨1, 10⟩], "on_notice", none, some 1, 800⟩],
    winner := some "A", ended_early := false }

def c8resB : KORMSeasonResult :=
  { c8resA with
    weeks := [⟨1, 1, "1-strike", [("A", 10)], ["A"], [], 0⟩],
    team_results := [⟨"A", [⟨1, 11⟩], "on_notice", none, some 1, 800⟩] }

/-- Counterexample to C8 as stated: serialization is not injective — two
season results differing in a `WeekResult.active_count_end` and in a
strike's `score` produce identical JSON, so no deserialization can
reconstruct every field of the data model. -/
theorem C8_counterexample :
    c8resA ≠ c8resB ∧
    generate_korm_json c8resA = generate_korm_json c8resB ∧
    c8resA.weeks.map (·.active_count_end) ≠ c8resB.weeks.map (·.active_count_end) ∧
    c8resA.team_results.map (fun t => t.strikes.map (·.score))
      ≠ c8resB.team_results.map (fun t => t.strikes.map (·.score)) := by
  decide

/-- Modelled from the spec: the repository contains no deserializer for the
KORM JSON document (§6 describes the JSON as "mirroring the data model
1:1", and the round-trip bullet in §8 presumes reading it back), so the
reader is modelled from those words: each serialized field is read straight
back into the data model.  The fields the JSON does not carry — each
strike's `score` and each week's `active_count_end` — cannot be read back
and are filled with `0`. -/
def parse_korm_json (j : KormJson) : KORMSeasonResult :=
  { season := j.season,
    korm_window := j.korm_window,
    entry_fee := j.entry_fee,
    pool := j.pool,
    teams := j.teams,
    weeks := j.weeks.map (fun w =>
      ⟨w.week, w.active_count, w.strike_mode, w.scores, w.strikes,
       w.eliminations, 0⟩),
    team_results := j.final_standings.map (fun s =>
      ⟨s.team, s.strike_weeks.map (fun w => ⟨w, 0⟩), s.status,
       s.elimination_week, s.place, s.payout⟩),
    winner := j.winner,
    ended_early := j.ended_early }

/-- **C8 (amended).** Round-tripping a `KORMSeasonResult` through
`generate_korm_json` and the (spec-modelled) reader reconstructs the season
scalars and winner, every field of every week record except
`active_count_end`, and — up to the standings reordering of the team dict —
every per-team field except the strikes' scores (strike weeks and strike
counts survive).  The strikes' scores and the weeks' `active_count_end` are
not serialized and are lost, as `C8_counterexample` shows. -/
theorem C8_roundtrip (r : KORMSeasonResult) :
    (parse_korm_json (generate_korm_json r)).season = r.season ∧
    (parse_korm_json (generate_korm_json r)).korm_window = r.korm_window ∧
    (parse_korm_json (generate_korm_json r)).entry_fee = r.entry_fee ∧
    (parse_korm_json (generate_korm_json r)).pool = r.pool ∧
    (parse_korm_json (generate_korm_json r)).teams = r.teams ∧
    (parse_korm_json (generate_korm_json r)).winner = r.winner ∧
    (parse_korm_json (generate_korm_json r)).ended_early = r.ended_early ∧
    (parse_korm_json (generate_korm_json r)).weeks.map
        (fun w => (w.week, w.active_count_start, w.strike_mode, w.scores,
          w.strikes_given, w.eliminations))
      = r.weeks.map (fun w => (w.week, w.active_count_start, w.strike_mode,
          w.scores, w.strikes_given, w.eliminations)) ∧
    ((parse_korm_json (generate_korm_json r)).team_results.map
        (fun t => (t.team_code, t.strike_weeks, t.strike_count, t.status,
          t.elimination_week, t.final_place, t.payout))).Perm
      (r.team_results.map
        (fun t => (t.team_code, t.strike_weeks, t.strike_count, t.status,
          t.elimination_week, t.final_place, t.payout))) := by
  refine ⟨rfl, rfl, rfl, rfl, rfl, rfl, rfl, ?_, ?_⟩
  · simp only [parse_korm_json, generate_korm_json, List.map_map]
    rfl
  · simp only [parse_korm_json, generate_korm_json, List.map_map]
    refine List.Perm.trans ?_ ((List.perm_insertionSort placeRank r.team_results).map _)
    apply List.Perm.of_eq
    apply List.map_congr_left
    intro t _
    simp [KORMTeamResult.strike_weeks, KORMTeamResult.strike_count,
      List.map_map, Function.comp]

/-- Witness for C5: 6 active teams give 2-strike mode; 2 active teams give
1-strike mode. -/
theorem C5_witness :
    ((process_korm_week 1 exScores6 exTeams6).1.strike_mode = "2-strike"
      ↔ 5 ≤ (process_korm_week 1 exScores6 exTeams6).1.active_count_start) ∧
    (process_korm_week 1 [("A", 10), ("B", 5)] exInit2).1.strike_mode = "1-strike" :=
  ⟨(C5_strike_mode 1 exScores6 exTeams6).1,
   (C5_strike_mode 1 [("A", 10), ("B", 5)] exInit2).2.1 (by decide)⟩

/-- Witness for the amended C8 at a concrete season result. -/
theorem C8_witness :
    (parse_korm_json (generate_korm_json c8resA)).teams = c8resA.teams ∧
    ((parse_korm_json (generate_korm_json c8resA)).team_results.map
        (fun t => (t.team_code, t.strike_weeks, t.strike_count, t.status,
          t.elimination_week, t.final_place, t.payout))).Perm
      (c8resA.team_results.map
        (fun t => (t.team_code, t.strike_weeks, t.strike_count, t.status,
          t.elimination_week, t.final_place, t.payout))) :=
  ⟨(C8_roundtrip c8resA).2.2.2.2.1, (C8_roundtrip c8resA).2.2.2.2.2.2.2.2⟩
